import Mathlib

/-!
Verification of the reconciliation core of the product-availability editor
(`src/main.py`): the time codec (`format_time_for_db`, `format_time_for_editor`),
the snapshot loader (`fetch_data`), the diff-and-save logic of `main_app`, and
the session-expiry routing.  Python values are embedded shallowly: `None`
becomes `Option.none`, a raised exception becomes `Except.error`, and the
mutable `st.session_state` baseline becomes explicit state passing.
-/

namespace LisaWebsite

/-- A Python `datetime.time` value: time of day with microsecond resolution. -/
structure TimeOfDay where
  hour : Nat
  minute : Nat
  second : Nat
  microsecond : Nat
  deriving DecidableEq, Repr

/-- The decimal digit characters used by `strftime`/`strptime`. -/
def digitChar (d : Nat) : Char :=
  match d with
  | 0 => '0' | 1 => '1' | 2 => '2' | 3 => '3' | 4 => '4'
  | 5 => '5' | 6 => '6' | 7 => '7' | 8 => '8' | _ => '9'

/-- Numeric value of a decimal digit character, `none` for a non-digit
(models the per-character check done by the `strptime` format regex). -/
def digitVal (c : Char) : Option Nat :=
  if c.isDigit then some (c.toNat - 48) else none

/-- Zero-padded two-digit rendering, as produced by `strftime` `%H`/`%M`/`%S`
on in-range field values (all field values of a real `datetime.time` are
below 100, so two digits always suffice). -/
def pad2 (n : Nat) : String :=
  String.mk [digitChar (n / 10), digitChar (n % 10)]

/-- Model of `format_time_for_db` (src/main.py lines 45-47): encodes a
`datetime.time` as `"HH:MM:SS"`; any non-time input (modelled as `none`)
encodes to `None`. -/
def format_time_for_db : Option TimeOfDay → Option String
  | some t => some (pad2 t.hour ++ ":" ++ pad2 t.minute ++ ":" ++ pad2 t.second)
  | none => none

/-- Splits a character list on `':'`, accumulator-style; models the way the
`strptime` format string `"%H:%M:%S"` cuts the input at the literal colons. -/
def splitOnColonAux (acc : List Char) : List Char → List (List Char)
  | [] => [acc.reverse]
  | c :: cs => if c = ':' then acc.reverse :: splitOnColonAux [] cs
               else splitOnColonAux (c :: acc) cs

/-- One numeric component of `"%H:%M:%S"`: `strptime` accepts one or two
digits per component. -/
def parseComponent (cs : List Char) : Option Nat :=
  match cs with
  | [c] => digitVal c
  | [c1, c2] =>
    match digitVal c1, digitVal c2 with
    | some d1, some d2 => some (10 * d1 + d2)
    | _, _ => none
  | _ => none

/-- Model of `datetime.strptime(s, "%H:%M:%S").time()`: three 1-2 digit components
separated by colons, hour below 24, minute below 60, second below 60
(the regex admits leap seconds 60-61 but the `datetime` constructor then
raises `ValueError`, which the caller treats the same as a parse failure).
Returns `none` where Python raises `ValueError`/`TypeError`. -/
def strptimeHMS (s : String) : Option TimeOfDay :=
  match splitOnColonAux [] s.toList with
  | [hs, ms, ss] =>
    match parseComponent hs, parseComponent ms, parseComponent ss with
    | some h, some m, some sec =>
      if h ≤ 23 ∧ m ≤ 59 ∧ sec ≤ 59 then some ⟨h, m, sec, 0⟩ else none
    | _, _, _ => none
  | _ => none

/-- Model of `format_time_for_editor` (src/main.py lines 49-57): decodes a DB cell
(string or null) to a `datetime.time`.  The second component of the result
records whether a warning was logged: falsy input (null or the empty
string) returns `None` silently, a failed parse returns `None` and logs a
warning; the function never raises. -/
def format_time_for_editor : Option String → Option TimeOfDay × Bool
  | none => (none, false)
  | some s =>
    if s = "" then (none, false)
    else
      match strptimeHMS s with
      | some t => (some t, false)
      | none => (none, true)

/-- A raw row of the `products` relation as returned by the store, before
normalization (src/main.py line 69).  Every field may be null or missing
for a given row; a missing or null cell is modelled as `none`. -/
structure RawRecord where
  code : Option String
  name : Option String
  available_from : Option String
  available_to : Option String
  allow_negative : Option Bool
  deriving DecidableEq, Repr

/-- A normalized row of the loaded snapshot, after `fetch_data`
post-processing: times decoded to `datetime.time`, `allow_negative`
coerced to boolean. -/
structure ProcessedRecord where
  code : Option String
  name : Option String
  available_from : Option TimeOfDay
  available_to : Option TimeOfDay
  allow_negative : Bool
  deriving DecidableEq, Repr

/-- The per-row normalization inside `fetch_data`
(src/main.py lines 86-89): decode the two time columns with
`format_time_for_editor`, default a null `allow_negative` to `False`. -/
def processRecord (r : RawRecord) : ProcessedRecord :=
  { code := r.code
    name := r.name
    available_from := (format_time_for_editor r.available_from).1
    available_to := (format_time_for_editor r.available_to).1
    allow_negative := r.allow_negative.getD false }

/-- Model of `fetch_data` (src/main.py lines 59-97).  The store query result is an
`Except`: `Except.error` models an exception raised while fetching.  The
second component of the result is the error message logged (`none` when
the load succeeded).  A pandas `DataFrame` built from a list of dicts has
a `code` column exactly when some row carries a `code` key; when no row
does, the function reports the missing mandatory column and returns the
empty snapshot.  On any fetch exception it likewise returns the empty
snapshot; it never raises to the caller. -/
def fetch_data (res : Except String (List RawRecord)) :
    List ProcessedRecord × Option String :=
  match res with
  | Except.error e => ([], some ("Error in fetch_data: " ++ e))
  | Except.ok rows =>
    if rows.any (fun r => r.code.isSome) then
      (rows.map processRecord, none)
    else ([], some "Product table missing code column.")

/-- A row of the editor snapshot as used by the save handler: `main_app`
only reaches the diff loop with a snapshot whose rows carry a (string)
`code` key (src/main.py lines 145-149).  `name` stands for the open set of
non-tracked descriptive attributes. -/
structure Record where
  code : String
  name : String
  available_from : Option TimeOfDay
  available_to : Option TimeOfDay
  allow_negative : Bool
  deriving DecidableEq, Repr

/-- The dict appended to `updates` for a changed row
(src/main.py lines 156-161): the row's code plus the three tracked fields,
times re-encoded by `format_time_for_db`. -/
structure ChangeRecord where
  code : String
  available_from : Option String
  available_to : Option String
  allow_negative : Bool
  deriving DecidableEq, Repr

/-- A JSON-ish cell value of an update payload. -/
inductive FieldVal where
  | str : Option String → FieldVal
  | boolean : Bool → FieldVal
  deriving DecidableEq, Repr

/-- The partial-update payload sent to the store for one `ChangeRecord`
(src/main.py line 172): the dict comprehension keeps exactly the keys
`available_from`, `available_to`, `allow_negative`. -/
def update_payload (u : ChangeRecord) : List (String × FieldVal) :=
  [("available_from", FieldVal.str u.available_from),
   ("available_to", FieldVal.str u.available_to),
   ("allow_negative", FieldVal.boolean u.allow_negative)]

/-- The change test of the save handler (src/main.py lines 152-154):
true when any of the three tracked fields differs between the baseline
row and the edited row. -/
def rowChanged (orig row : Record) : Bool :=
  orig.available_from != row.available_from ||
  orig.available_to != row.available_to ||
  orig.allow_negative != row.allow_negative

/-- The dict built for a changed row (src/main.py lines 156-161). -/
def mkUpdate (row : Record) : ChangeRecord :=
  { code := row.code
    available_from := format_time_for_db row.available_from
    available_to := format_time_for_db row.available_to
    allow_negative := row.allow_negative }

/-- Model of `original_indexed.loc[product_code]` after
`set_index('code')` (src/main.py lines 145, 149): looks up the baseline
row with the given code (for a baseline with unique codes, `.loc` returns
exactly the matching row; a missing label raises `KeyError`, modelled by
`none`). -/
def indexByCode (baseline : List Record) (c : String) : Option Record :=
  baseline.find? (fun r => r.code == c)

/-- The diff loop of the save handler (src/main.py lines 147-164): walk
the edited rows in order, look each code up in the indexed baseline
(`Except.error c` models the uncaught `KeyError` raised for a code `c`
absent from the baseline), and collect an update dict for every row whose
tracked fields changed. -/
def diffSnapshots (baseline : List Record) : List Record → Except String (List ChangeRecord)
  | [] => Except.ok []
  | row :: rest =>
    match indexByCode baseline row.code with
    | none => Except.error row.code
    | some orig =>
      match diffSnapshots baseline rest with
      | Except.error e => Except.error e
      | Except.ok tail =>
        if rowChanged orig row then Except.ok (mkUpdate row :: tail)
        else Except.ok tail

/-- The update loop inside the single `try` block
(src/main.py lines 169-173).  `store u` models
`supabase.table("products").update(payload).eq("code", u.code).execute()`;
`Except.error` models a raised exception.  Returns the codes whose update
call was actually issued, in order, together with the first error (after
which the loop aborts: the remaining updates are never attempted). -/
def applyUpdates (store : ChangeRecord → Except String Unit) :
    List ChangeRecord → List String × Option String
  | [] => ([], none)
  | u :: rest =>
    match store u with
    | Except.error e => ([u.code], some e)
    | Except.ok _ =>
      let r := applyUpdates store rest
      (u.code :: r.1, r.2)

/-- The operator-visible outcome of one press of the Save button. -/
inductive SaveToast where
  | saved : Nat → SaveToast
  | errorSaving : String → SaveToast
  | noChanges : SaveToast
  | uncaught : String → SaveToast
  deriving DecidableEq, Repr

/-- One Save-button cycle (src/main.py lines 143-185): diff the edited
snapshot against the baseline, send the updates, and only when every
update call returned without error replace the in-memory baseline
(`st.session_state.original_data = edited_df.copy()`, line 179) with the
edited snapshot.  A drift `KeyError` or a store error leaves the baseline
untouched.  Returns the new baseline and the toast shown. -/
def save_changes (store : ChangeRecord → Except String Unit)
    (baseline edited : List Record) : List Record × SaveToast :=
  match diffSnapshots baseline edited with
  | Except.error c => (baseline, SaveToast.uncaught c)
  | Except.ok updates =>
    if updates.isEmpty then (baseline, SaveToast.noChanges)
    else
      match (applyUpdates store updates).2 with
      | some e => (baseline, SaveToast.errorSaving e)
      | none => (edited, SaveToast.saved updates.length)

/-- Five minutes, in microseconds: `timedelta(minutes=5)`
(src/main.py line 224). -/
def sessionTimeoutMicros : Int := 300000000

/-- Value of `datetime.min` (year 1) as microseconds relative to the Unix epoch:
the default `login_time` used by `st.session_state.get`
(src/main.py line 223). -/
def datetime_min : Int := -62135596800000000

/-- The session-related part of `st.session_state`.  Timestamps are
microseconds (the resolution of `datetime`), as `Int`. -/
structure AppSession where
  logged_in : Bool
  login_time : Option Int
  username : Option String
  deriving DecidableEq, Repr

/-- The page-routing check run on every script execution
(src/main.py lines 221-236): a logged-in session with elapsed time
strictly below five minutes stays active; otherwise the session keys are
deleted (logged out) and the check reports inactive.  Returns the session
state after the check and whether `main_app` runs. -/
def route_session (s : AppSession) (now : Int) : AppSession × Bool :=
  if s.logged_in then
    if now - s.login_time.getD datetime_min < sessionTimeoutMicros then (s, true)
    else ({ logged_in := false, login_time := none, username := none }, false)
  else (s, false)

/-- Decidable equality for `Except`, used to evaluate the embedded
functions on concrete inputs. -/
def exceptDecEq {ε α : Type} [DecidableEq ε] [DecidableEq α] : DecidableEq (Except ε α)
  | Except.error a, Except.error b =>
    if h : a = b then Decidable.isTrue (by rw [h])
    else Decidable.isFalse (by intro hc; cases hc; exact h rfl)
  | Except.error _, Except.ok _ => Decidable.isFalse (by intro hc; cases hc)
  | Except.ok _, Except.error _ => Decidable.isFalse (by intro hc; cases hc)
  | Except.ok a, Except.ok b =>
    if h : a = b then Decidable.isTrue (by rw [h])
    else Decidable.isFalse (by intro hc; cases hc; exact h rfl)

instance {ε α : Type} [DecidableEq ε] [DecidableEq α] : DecidableEq (Except ε α) :=
  exceptDecEq

theorem digitChar_ne_colon (d : Nat) : digitChar d ≠ ':' := by
  unfold digitChar
  split <;> decide

theorem digitVal_digitChar (d : Nat) (hd : d ≤ 9) : digitVal (digitChar d) = some d := by
  interval_cases d <;> decide

theorem parseComponent_pad2 (n : Nat) (hn : n ≤ 99) :
    parseComponent (pad2 n).toList = some n := by
  have h1 : n / 10 ≤ 9 := by omega
  have h2 : n % 10 ≤ 9 := by omega
  show parseComponent [digitChar (n / 10), digitChar (n % 10)] = some n
  simp only [parseComponent, digitVal_digitChar _ h1, digitVal_digitChar _ h2]
  congr 1
  omega

theorem splitOnColonAux_no_colon (cs : List Char) (acc : List Char)
    (h : ∀ c ∈ cs, c ≠ ':') :
    splitOnColonAux acc cs = [acc.reverse ++ cs] := by
  induction cs generalizing acc with
  | nil => simp [splitOnColonAux]
  | cons c cs ih =>
    have hc : c ≠ ':' := h c (by simp)
    simp only [splitOnColonAux, if_neg hc]
    rw [ih _ (fun x hx => h x (by simp [hx]))]
    simp

theorem splitOnColonAux_append_colon (cs : List Char) (acc rest : List Char)
    (h : ∀ c ∈ cs, c ≠ ':') :
    splitOnColonAux acc (cs ++ ':' :: rest) =
      (acc.reverse ++ cs) :: splitOnColonAux [] rest := by
  induction cs generalizing acc with
  | nil => simp [splitOnColonAux]
  | cons c cs ih =>
    have hc : c ≠ ':' := h c (by simp)
    simp only [List.cons_append, splitOnColonAux, if_neg hc, List.append_eq]
    rw [ih _ (fun x hx => h x (by simp [hx]))]
    simp

theorem strptimeHMS_encode (h m s : Nat) (hh : h < 24) (hm : m < 60) (hs : s < 60) :
    strptimeHMS (pad2 h ++ ":" ++ pad2 m ++ ":" ++ pad2 s) =
      some ⟨h, m, s, 0⟩ := by
  have htl : (pad2 h ++ ":" ++ pad2 m ++ ":" ++ pad2 s).toList =
      [digitChar (h / 10), digitChar (h % 10)] ++ ':' ::
        ([digitChar (m / 10), digitChar (m % 10)] ++ ':' ::
          [digitChar (s / 10), digitChar (s % 10)]) := rfl
  have hnc : ∀ x (hx : x ≤ 99) c, c ∈ [digitChar (x / 10), digitChar (x % 10)] → c ≠ ':' := by
    intro x hx c hc
    rcases List.mem_cons.mp hc with rfl | hc2
    · exact digitChar_ne_colon _
    · rcases List.mem_cons.mp hc2 with rfl | hc3
      · exact digitChar_ne_colon _
      · cases hc3
  unfold strptimeHMS
  rw [htl, splitOnColonAux_append_colon _ _ _ (hnc h (by omega)),
    splitOnColonAux_append_colon _ _ _ (hnc m (by omega)),
    splitOnColonAux_no_colon _ _ (hnc s (by omega))]
  simp only [List.reverse_nil, List.nil_append]
  have ph : parseComponent [digitChar (h / 10), digitChar (h % 10)] = some h :=
    parseComponent_pad2 h (by omega)
  have pm : parseComponent [digitChar (m / 10), digitChar (m % 10)] = some m :=
    parseComponent_pad2 m (by omega)
  have ps : parseComponent [digitChar (s / 10), digitChar (s % 10)] = some s :=
    parseComponent_pad2 s (by omega)
  simp only [ph, pm, ps]
  rw [if_pos ⟨by omega, by omega, by omega⟩]

theorem encode_ne_empty (h m s : Nat) :
    (pad2 h ++ ":" ++ pad2 m ++ ":" ++ pad2 s) ≠ "" := by
  intro hcon
  have h2 := congrArg String.toList hcon
  exact absurd h2 (by simp [pad2])

/-- C5: decoding the encoded string of any valid time-of-day at second
resolution (microsecond component zero, fields in range, as `strftime`
receives from a real `datetime.time`) yields the time back, and encoding
the absent value yields the absent value, not an empty string. -/
theorem decode_encode_roundtrip (t : TimeOfDay) (hh : t.hour < 24)
    (hm : t.minute < 60) (hs : t.second < 60) (hu : t.microsecond = 0) :
    (format_time_for_editor (format_time_for_db (some t))).1 = some t ∧
      format_time_for_db none = none := by
  obtain ⟨h, m, s, u⟩ := t
  simp only at hh hm hs hu
  subst hu
  refine ⟨?_, rfl⟩
  show (format_time_for_editor (some (pad2 h ++ ":" ++ pad2 m ++ ":" ++ pad2 s))).1 = _
  simp only [format_time_for_editor, if_neg (encode_ne_empty h m s),
    strptimeHMS_encode h m s hh hm hs]

theorem decode_encode_roundtrip_witness :
    (format_time_for_editor (format_time_for_db (some ⟨9, 30, 5, 0⟩))).1 =
        some ⟨9, 30, 5, 0⟩ ∧
      format_time_for_db none = none :=
  decode_encode_roundtrip ⟨9, 30, 5, 0⟩ (by decide) (by decide) (by decide) rfl

/-- C6 counterexample: on the empty string the decoder returns `None`
through the falsy-input branch without logging a warning (the warning is
only logged on a failed parse of a non-empty string), so the claim that a
warning is emitted on empty input is false. -/
theorem decode_empty_no_warning :
    (format_time_for_editor (some "")).1 = none ∧
      (format_time_for_editor (some "")).2 = false := by
  exact ⟨rfl, rfl⟩

/-- C6 (amended): the decoder is total; on the empty string it returns
`None` with no warning, on a malformed non-empty string it returns `None`
and logs a warning, and it never raises (modelled by the function being
total over all strings). -/
theorem decode_total_and_warning :
    format_time_for_editor (some "") = (none, false) ∧
      format_time_for_editor (some "bad") = (none, true) ∧
      ∀ s, s ≠ "" → strptimeHMS s = none →
        format_time_for_editor (some s) = (none, true) := by
  refine ⟨rfl, by decide, ?_⟩
  intro s hne hp
  simp only [format_time_for_editor, if_neg hne, hp]

theorem decode_total_and_warning_witness :
    format_time_for_editor (some "25:00:00") = (none, true) :=
  decode_total_and_warning.2.2 "25:00:00" (by decide) (by decide)

/-- C7: a fetched record with no availability configuration data (all
three tracked cells missing or null) is not omitted from the loaded
snapshot: it appears, the row count is preserved, and its normalized form
has `start_time = None`, `end_time = None`, `allow_negative = false`. -/
theorem record_without_config_kept (rows : List RawRecord) (r : RawRecord)
    (hmem : r ∈ rows) (hcol : rows.any (fun x => x.code.isSome) = true)
    (hfrom : r.available_from = none) (hto : r.available_to = none)
    (hneg : r.allow_negative = none) :
    (⟨r.code, r.name, none, none, false⟩ : ProcessedRecord) ∈
        (fetch_data (Except.ok rows)).1 ∧
      ((fetch_data (Except.ok rows)).1).length = rows.length := by
  simp only [fetch_data]
  rw [if_pos hcol]
  constructor
  · have hpr : processRecord r = ⟨r.code, r.name, none, none, false⟩ := by
      unfold processRecord
      rw [hfrom, hto, hneg]
      rfl
    exact hpr ▸ List.mem_map_of_mem processRecord hmem
  · exact List.length_map rows processRecord

theorem record_without_config_kept_witness :
    (⟨some "A", some "Widget", none, none, false⟩ : ProcessedRecord) ∈
        (fetch_data (Except.ok
          [⟨some "A", some "Widget", none, none, none⟩])).1 ∧
      ((fetch_data (Except.ok
        [⟨some "A", some "Widget", none, none, none⟩])).1).length =
        [(⟨some "A", some "Widget", none, none, none⟩ : RawRecord)].length :=
  record_without_config_kept [⟨some "A", some "Widget", none, none, none⟩]
    ⟨some "A", some "Widget", none, none, none⟩
    (by decide) (by decide) rfl rfl rfl

/-- C8: when the primary fetch raises (store unreachable) or the result
lacks the mandatory `code` column (no row carries a `code` key), the load
returns the empty snapshot together with a logged error message, and the
exception never propagates to the caller (the embedding of `fetch_data`
is a total function). -/
theorem load_failure_empty_snapshot :
    (∀ e, (fetch_data (Except.error e)).1 = [] ∧
      (fetch_data (Except.error e)).2.isSome = true) ∧
    ∀ rows, (∀ r ∈ rows, r.code = none) →
      (fetch_data (Except.ok rows)).1 = [] ∧
        (fetch_data (Except.ok rows)).2.isSome = true := by
  constructor
  · intro e
    exact ⟨rfl, rfl⟩
  · intro rows hall
    have hcol : rows.any (fun x => x.code.isSome) = false := by
      rw [List.any_eq_false]
      intro r hr
      rw [hall r hr]
      decide
    simp only [fetch_data]
    rw [if_neg (by rw [hcol]; decide)]
    exact ⟨rfl, rfl⟩

theorem load_failure_empty_snapshot_witness :
    ((fetch_data (Except.error "store unreachable")).1 = [] ∧
      (fetch_data (Except.error "store unreachable")).2.isSome = true) ∧
    (fetch_data (Except.ok [⟨none, some "Widget", some "09:00:00", none, some true⟩])).1 = [] ∧
      (fetch_data (Except.ok [⟨none, some "Widget", some "09:00:00", none, some true⟩])).2.isSome = true :=
  ⟨load_failure_empty_snapshot.1 "store unreachable",
    load_failure_empty_snapshot.2
      [⟨none, some "Widget", some "09:00:00", none, some true⟩] (by decide)⟩

/-- C4: for a logged-in session started at time `T`, any routing check
run strictly before `T` plus five minutes finds the session valid and
leaves the state untouched, while any check at elapsed time greater than
or equal to exactly five minutes finds it expired, deletes the session
keys (the logged-out state) and denies access; the boundary is inclusive. -/
theorem session_expiry_boundary (s : AppSession) (T now : Int)
    (hl : s.logged_in = true) (ht : s.login_time = some T) :
    (now - T < sessionTimeoutMicros → route_session s now = (s, true)) ∧
    (sessionTimeoutMicros ≤ now - T →
      route_session s now =
        ({ logged_in := false, login_time := none, username := none }, false)) := by
  constructor
  · intro hlt
    simp [route_session, hl, ht, hlt]
  · intro hge
    simp [route_session, hl, ht, not_lt.mpr hge]

theorem session_expiry_boundary_witness :
    route_session ⟨true, some 0, some "admin"⟩ 299999999 =
        (⟨true, some 0, some "admin"⟩, true) ∧
      route_session ⟨true, some 0, some "admin"⟩ 300000000 =
        (⟨false, none, none⟩, false) :=
  ⟨(session_expiry_boundary ⟨true, some 0, some "admin"⟩ 0 299999999 rfl rfl).1
      (by decide),
    (session_expiry_boundary ⟨true, some 0, some "admin"⟩ 0 300000000 rfl rfl).2
      (by decide)⟩

theorem indexByCode_self_of_nodup (S : List Record) (r : Record)
    (hnd : (S.map Record.code).Nodup) (hr : r ∈ S) :
    indexByCode S r.code = some r := by
  induction S with
  | nil => cases hr
  | cons x xs ih =>
    rw [List.map_cons, List.nodup_cons] at hnd
    rcases List.mem_cons.mp hr with rfl | hmem
    · exact List.find?_cons_of_pos _ (by simp)
    · have hfe : (x.code == r.code) = false := by
        rw [beq_eq_false_iff_ne]
        intro he
        exact hnd.1 (he ▸ List.mem_map_of_mem Record.code hmem)
      unfold indexByCode at ih ⊢
      simp only [List.find?, hfe]
      exact ih hnd.2 hmem

theorem rowChanged_self (r : Record) : rowChanged r r = false := by
  simp [rowChanged]

theorem diff_ok_of_all_found (base ed : List Record)
    (h : ∀ r ∈ ed, indexByCode base r.code = some r) :
    diffSnapshots base ed = Except.ok [] := by
  induction ed with
  | nil => rfl
  | cons row rest ih =>
    have h1 := h row (by simp)
    have h2 := ih (fun r hr => h r (by simp [hr]))
    simp [diffSnapshots, h1, h2, rowChanged_self]

/-- C9: diffing a snapshot with unique codes against itself produces no
change records. -/
theorem self_diff_empty (S : List Record) (hnd : (S.map Record.code).Nodup) :
    diffSnapshots S S = Except.ok [] :=
  diff_ok_of_all_found S S (fun r hr => indexByCode_self_of_nodup S r hnd hr)

theorem self_diff_empty_witness :
    diffSnapshots
        [⟨"A", "Widget", some ⟨9, 0, 0, 0⟩, none, false⟩,
         ⟨"B", "Gadget", none, some ⟨17, 30, 0, 0⟩, true⟩]
        [⟨"A", "Widget", some ⟨9, 0, 0, 0⟩, none, false⟩,
         ⟨"B", "Gadget", none, some ⟨17, 30, 0, 0⟩, true⟩] =
      Except.ok [] :=
  self_diff_empty
    [⟨"A", "Widget", some ⟨9, 0, 0, 0⟩, none, false⟩,
     ⟨"B", "Gadget", none, some ⟨17, 30, 0, 0⟩, true⟩] (by decide)

/-- C3: diffing an edited snapshot that contains a code absent from the
baseline (whose codes are unique, as snapshots are) stops with an explicit
error naming a drifted code — the `KeyError` raised by the baseline lookup
— instead of silently skipping or inserting the record; the embedding is a
total function returning `Except.error`, the raised exception being caught
and displayed by the hosting framework rather than crashing the process. -/
theorem diff_drift_error (b e : List Record)
    (_hnd : (b.map Record.code).Nodup)
    (h : ∃ r ∈ e, r.code ∉ b.map Record.code) :
    ∃ c, diffSnapshots b e = Except.error c ∧ c ∉ b.map Record.code := by
  induction e with
  | nil =>
    rcases h with ⟨r, hr, _⟩
    cases hr
  | cons row rest ih =>
    by_cases hrow : row.code ∈ b.map Record.code
    · have hfind : ∃ orig, indexByCode b row.code = some orig := by
        rcases List.mem_map.mp hrow with ⟨x, hx, hxc⟩
        cases horig : indexByCode b row.code with
        | some o => exact ⟨o, rfl⟩
        | none =>
          exfalso
          have h2 := List.find?_eq_none.mp horig x hx
          rw [beq_iff_eq] at h2
          exact h2 hxc
      rcases hfind with ⟨orig, horig⟩
      have hrest : ∃ r ∈ rest, r.code ∉ b.map Record.code := by
        rcases h with ⟨r, hr, hnc⟩
        rcases List.mem_cons.mp hr with rfl | hmem
        · exact absurd hrow hnc
        · exact ⟨r, hmem, hnc⟩
      rcases ih hrest with ⟨c, hc, hcn⟩
      refine ⟨c, ?_, hcn⟩
      simp only [diffSnapshots, horig, hc]
    · have hfind : indexByCode b row.code = none := by
        unfold indexByCode
        rw [List.find?_eq_none]
        intro x hx
        rw [beq_iff_eq]
        intro he
        exact hrow (he ▸ List.mem_map_of_mem Record.code hx)
      exact ⟨row.code, by simp only [diffSnapshots, hfind], hrow⟩

theorem diff_drift_error_witness :
    ∃ c, diffSnapshots
        [⟨"A", "Widget", some ⟨9, 0, 0, 0⟩, none, false⟩]
        [⟨"A", "Widget", some ⟨9, 0, 0, 0⟩, none, false⟩,
         ⟨"B", "Gadget", none, none, true⟩] =
        Except.error c ∧
      c ∉ [⟨"A", "Widget", some ⟨9, 0, 0, 0⟩, none, false⟩].map Record.code :=
  diff_drift_error
    [⟨"A", "Widget", some ⟨9, 0, 0, 0⟩, none, false⟩]
    [⟨"A", "Widget", some ⟨9, 0, 0, 0⟩, none, false⟩,
     ⟨"B", "Gadget", none, none, true⟩]
    (by decide)
    ⟨⟨"B", "Gadget", none, none, true⟩, by decide, by decide⟩

/-- C1 counterexample: with a baseline and an edited snapshot that differ
only in the `available_from` field of record `A`, the emitted update dict
and its store payload still carry the unchanged `available_to` and
`allow_negative` fields, so the claim that only differing fields are sent
is false. -/
theorem unchanged_fields_in_payload :
    diffSnapshots
        [⟨"A", "Widget", some ⟨9, 0, 0, 0⟩, none, false⟩]
        [⟨"A", "Widget", some ⟨10, 0, 0, 0⟩, none, false⟩] =
      Except.ok [⟨"A", some "10:00:00", none, false⟩] ∧
    (⟨"A", "Widget", some ⟨9, 0, 0, 0⟩, none, false⟩ : Record).available_to =
      (⟨"A", "Widget", some ⟨10, 0, 0, 0⟩, none, false⟩ : Record).available_to ∧
    (⟨"A", "Widget", some ⟨9, 0, 0, 0⟩, none, false⟩ : Record).allow_negative =
      (⟨"A", "Widget", some ⟨10, 0, 0, 0⟩, none, false⟩ : Record).allow_negative ∧
    "available_to" ∈
      (update_payload ⟨"A", some "10:00:00", none, false⟩).map Prod.fst ∧
    "allow_negative" ∈
      (update_payload ⟨"A", some "10:00:00", none, false⟩).map Prod.fst := by
  refine ⟨by decide, rfl, rfl, by decide, by decide⟩

theorem diff_mem_spec (b : List Record) (u : ChangeRecord) :
    ∀ e us, diffSnapshots b e = Except.ok us → u ∈ us →
      ∃ row ∈ e, ∃ orig, indexByCode b row.code = some orig ∧
        rowChanged orig row = true ∧ u = mkUpdate row := by
  intro e
  induction e with
  | nil =>
    intro us hd hu
    cases hd
    cases hu
  | cons row rest ih =>
    intro us hd hu
    cases hfind : indexByCode b row.code with
    | none =>
      simp only [diffSnapshots, hfind] at hd
      exact Except.noConfusion hd
    | some orig =>
      cases hrest : diffSnapshots b rest with
      | error e2 =>
        simp only [diffSnapshots, hfind, hrest] at hd
        exact Except.noConfusion hd
      | ok tail =>
        simp only [diffSnapshots, hfind, hrest] at hd
        by_cases hch : rowChanged orig row = true
        · rw [if_pos hch] at hd
          cases hd
          rcases List.mem_cons.mp hu with rfl | hmem
          · exact ⟨row, by simp, orig, hfind, hch, rfl⟩
          · rcases ih tail hrest hmem with ⟨row2, hrow2, rest2⟩
            exact ⟨row2, by simp [hrow2], rest2⟩
        · rw [if_neg hch] at hd
          cases hd
          rcases ih _ hrest hu with ⟨row2, hrow2, rest2⟩
          exact ⟨row2, by simp [hrow2], rest2⟩

theorem diff_complete (b : List Record) (row : Record) :
    ∀ e us, diffSnapshots b e = Except.ok us → row ∈ e →
      ∀ orig, indexByCode b row.code = some orig → rowChanged orig row = true →
        mkUpdate row ∈ us := by
  intro e
  induction e with
  | nil =>
    intro us _ hmem
    cases hmem
  | cons row2 rest ih =>
    intro us hd hmem orig horig hch
    cases hfind : indexByCode b row2.code with
    | none =>
      simp only [diffSnapshots, hfind] at hd
      exact Except.noConfusion hd
    | some orig2 =>
      cases hrest : diffSnapshots b rest with
      | error e2 =>
        simp only [diffSnapshots, hfind, hrest] at hd
        exact Except.noConfusion hd
      | ok tail =>
        simp only [diffSnapshots, hfind, hrest] at hd
        rcases List.mem_cons.mp hmem with rfl | hmem2
        · rw [hfind] at horig
          cases horig
          rw [if_pos hch] at hd
          cases hd
          exact List.mem_cons_self _ _
        · have htail : mkUpdate row ∈ tail := ih tail hrest hmem2 orig horig hch
          by_cases hch2 : rowChanged orig2 row2 = true
          · rw [if_pos hch2] at hd
            cases hd
            exact List.mem_cons_of_mem _ htail
          · rw [if_neg hch2] at hd
            cases hd
            exact htail

/-- C1 (amended): for a record whose tracked fields differ between the
baseline and the edited snapshot, an update dict for that record's code
is emitted, and every emitted update dict belongs to such a differing
row; its store payload carries exactly the three tracked-field keys with
the edited row's values — never a non-tracked attribute or a full-row
overwrite, but always all three tracked fields, including the unchanged
ones alongside the changed ones. -/
theorem payload_exactly_tracked_fields (b e : List Record)
    (us : List ChangeRecord) (hd : diffSnapshots b e = Except.ok us) :
    (∀ u ∈ us,
      (update_payload u).map Prod.fst =
          ["available_from", "available_to", "allow_negative"] ∧
        ∃ row ∈ e, ∃ orig, indexByCode b row.code = some orig ∧
          rowChanged orig row = true ∧ u = mkUpdate row) ∧
    ∀ row ∈ e, ∀ orig, indexByCode b row.code = some orig →
      rowChanged orig row = true → mkUpdate row ∈ us :=
  ⟨fun u hu => ⟨rfl, diff_mem_spec b u e us hd hu⟩,
    fun row hmem orig horig hch => diff_complete b row e us hd hmem orig horig hch⟩

theorem payload_exactly_tracked_fields_witness :
    ((update_payload ⟨"A", some "10:00:00", none, false⟩).map Prod.fst =
        ["available_from", "available_to", "allow_negative"] ∧
      ∃ row ∈ [⟨"A", "Widget", some ⟨10, 0, 0, 0⟩, none, false⟩],
        ∃ orig, indexByCode [⟨"A", "Widget", some ⟨9, 0, 0, 0⟩, none, false⟩]
            row.code = some orig ∧
          rowChanged orig row = true ∧
          (⟨"A", some "10:00:00", none, false⟩ : ChangeRecord) = mkUpdate row) ∧
    mkUpdate ⟨"A", "Widget", some ⟨10, 0, 0, 0⟩, none, false⟩ ∈
      [(⟨"A", some "10:00:00", none, false⟩ : ChangeRecord)] :=
  ⟨(payload_exactly_tracked_fields
      [⟨"A", "Widget", some ⟨9, 0, 0, 0⟩, none, false⟩]
      [⟨"A", "Widget", some ⟨10, 0, 0, 0⟩, none, false⟩]
      [⟨"A", some "10:00:00", none, false⟩] (by decide)).1
    ⟨"A", some "10:00:00", none, false⟩ (by decide),
    (payload_exactly_tracked_fields
      [⟨"A", "Widget", some ⟨9, 0, 0, 0⟩, none, false⟩]
      [⟨"A", "Widget", some ⟨10, 0, 0, 0⟩, none, false⟩]
      [⟨"A", some "10:00:00", none, false⟩] (by decide)).2
    ⟨"A", "Widget", some ⟨10, 0, 0, 0⟩, none, false⟩ (by decide)
    ⟨"A", "Widget", some ⟨9, 0, 0, 0⟩, none, false⟩ (by decide) (by decide)⟩

/-- C2 counterexample: with two updates where the store raises on code
`A`, the update for code `B` is never attempted (only `A` appears in the
list of issued calls) even though the store would have accepted it, and
the caller receives a single batch error rather than a per-code
breakdown; this refutes the claim that every other update is still
attempted after one failure. -/
theorem failed_update_blocks_rest :
    (applyUpdates
        (fun u => if u.code = "A" then Except.error "boom" else Except.ok ())
        [⟨"A", none, none, true⟩, ⟨"B", none, none, true⟩]).1 = ["A"] ∧
    "B" ∉ (applyUpdates
        (fun u => if u.code = "A" then Except.error "boom" else Except.ok ())
        [⟨"A", none, none, true⟩, ⟨"B", none, none, true⟩]).1 ∧
    (applyUpdates
        (fun u => if u.code = "A" then Except.error "boom" else Except.ok ())
        [⟨"A", none, none, true⟩, ⟨"B", none, none, true⟩]).2 = some "boom" ∧
    (fun (u : ChangeRecord) =>
        if u.code = "A" then Except.error "boom" else Except.ok ())
      ⟨"B", none, none, true⟩ = Except.ok () := by
  refine ⟨by decide, by decide, by decide, by decide⟩

/-- C2 (amended): updates are applied sequentially, and updates issued
before a failure stay applied (no rollback), but the first store error
aborts the loop: the remaining updates are never attempted and the caller
receives a single batch error, not a per-code breakdown. -/
theorem applyUpdates_stops_at_first_error
    (store : ChangeRecord → Except String Unit)
    (us : List ChangeRecord) (u : ChangeRecord) (vs : List ChangeRecord)
    (e : String)
    (hok : ∀ w ∈ us, store w = Except.ok ())
    (herr : store u = Except.error e) :
    applyUpdates store (us ++ u :: vs) =
      (us.map ChangeRecord.code ++ [u.code], some e) := by
  induction us with
  | nil => simp [applyUpdates, herr]
  | cons w ws ih =>
    have hw : store w = Except.ok () := hok w (by simp)
    simp only [List.cons_append, applyUpdates, hw, List.append_eq]
    rw [ih (fun x hx => hok x (by simp [hx]))]
    simp

theorem applyUpdates_stops_at_first_error_witness :
    applyUpdates
        (fun w => if w.code = "B" then Except.error "down" else Except.ok ())
        ([⟨"A", none, none, false⟩] ++
          (⟨"B", none, none, false⟩ : ChangeRecord) ::
            [⟨"C", none, none, false⟩]) =
      (["A", "B"], some "down") :=
  applyUpdates_stops_at_first_error
    (fun w => if w.code = "B" then Except.error "down" else Except.ok ())
    [⟨"A", none, none, false⟩] ⟨"B", none, none, false⟩
    [⟨"C", none, none, false⟩] "down" (by decide) (by decide)

/-- C10: in one Save cycle, if any store update raises, the in-memory
baseline snapshot (`st.session_state.original_data`) is left unchanged;
it is replaced by the edited snapshot only when the batch was non-empty
and every update call returned without error. -/
theorem baseline_kept_unless_all_updates_ok
    (store : ChangeRecord → Except String Unit)
    (b e : List Record) (us : List ChangeRecord)
    (hd : diffSnapshots b e = Except.ok us) :
    (∀ err, (applyUpdates store us).2 = some err →
      (save_changes store b e).1 = b) ∧
    ((applyUpdates store us).2 = none → us ≠ [] →
      (save_changes store b e).1 = e) := by
  constructor
  · intro err herr
    have hne : ¬ us.isEmpty = true := by
      intro hemp
      rw [List.isEmpty_iff] at hemp
      subst hemp
      simp [applyUpdates] at herr
    simp only [save_changes, hd, if_neg hne, herr]
  · intro hnone hne
    have hne2 : ¬ us.isEmpty = true := by
      simpa [List.isEmpty_iff] using hne
    simp only [save_changes, hd, if_neg hne2, hnone]

theorem baseline_kept_unless_all_updates_ok_witness :
    (save_changes (fun _ => Except.error "down")
        [⟨"A", "Widget", some ⟨9, 0, 0, 0⟩, none, false⟩]
        [⟨"A", "Widget", some ⟨10, 0, 0, 0⟩, none, false⟩]).1 =
      [⟨"A", "Widget", some ⟨9, 0, 0, 0⟩, none, false⟩] :=
  (baseline_kept_unless_all_updates_ok (fun _ => Except.error "down")
      [⟨"A", "Widget", some ⟨9, 0, 0, 0⟩, none, false⟩]
      [⟨"A", "Widget", some ⟨10, 0, 0, 0⟩, none, false⟩]
      [⟨"A", some "10:00:00", none, false⟩] (by decide)).1
    "down" (by decide)

end LisaWebsite
